import Mathlib

/-!
Shallow embedding of `localint.py` (Local Interaction Model, authors
D. Oyama and A. Yamagishi): N agents on a weighted directed graph
repeatedly best-respond to the aggregate action distribution of their
neighbors.

Modelling conventions:
* `AState N` is the shared index buffer `current_actions`, which is
  literally the `indices` array of the CSR matrix `current_actions_mixed`
  (source lines 35-40): the CSR triple is `data = ones(N)`,
  `indices = current_actions`, `indptr = arange(N+1)`, so row `i` of the
  mixed matrix carries the single entry `(current_actions[i], 1)`;
  `mixedOf` reconstructs the dense row from that triple.
* Matrix entries are modelled over `ℤ`: the source itself builds the
  mixed matrix with `dtype=int` data (lines 35-37), so with integer
  weight matrices every quantity in the engine is an integer; none of
  the verified properties depend on the numeric carrier.
* The best-response capability of the external `Player` class (imported
  from `game_tools`, which is not part of this repository) is an opaque
  parameter `br : (Fin A → ℤ) → Fin A`, shared by all players since
  `self.players = [Player(A) for i in range(self.N)]` builds N players
  from the one payoff matrix.
* Randomness is modelled by explicit oracles: `np.random.choice(range(N))`
  becomes a supplied `Fin N` value (one per sequential step, the stream
  `choices`), and `np.random.randint(num_actions, size=N)` a supplied
  draw `Fin N → ℕ` whose range condition is an explicit hypothesis. An
  oracle of an empty type does not exist, matching NumPy raising when
  asked to sample from an empty range.
-/

namespace LocalInteraction

/-- `current_actions`: the compact action profile of the N players; it is
the `indices` buffer of the sparse mixed-action matrix (line 40 takes a
`.view()` of those indices, so both representations share this storage). -/
abbrev AState (N : ℕ) := Fin N → ℕ

/-- Dense entry `(i, a)` of `current_actions_mixed`: the CSR data is all
ones and `indptr` is the identity partition, so the entry is 1 exactly
when `current_actions[i] = a` (lines 36-39). -/
def mixedOf (A : ℕ) {N : ℕ} (s : AState N) (i : Fin N) (a : Fin A) : ℤ :=
  if s i = a.val then 1 else 0

/-- Row `i` of `adj_matrix.dot(current_actions_mixed)`: the opponent
action distribution of player `i` (lines 54-55, and lines 69-70 for the
single-row variant, which compute the same row). -/
def oppDist {N A : ℕ} (adj : Fin N → Fin N → ℤ) (s : AState N)
    (i : Fin N) (a : Fin A) : ℤ :=
  ∑ j, adj i j * mixedOf A s j a

/-- The `for i, player in enumerate(self.players)` loop of lines 57-60,
made explicit in its processing order and in the initial contents of the
uninitialized `np.empty` buffer `best_responses`: each visited index `i`
gets `best_response` of row `i` of the pre-update opponent distributions. -/
def brLoop {N A : ℕ} (br : (Fin A → ℤ) → Fin A) (adj : Fin N → Fin N → ℤ)
    (s : AState N) : List (Fin N) → (Fin N → ℕ) → (Fin N → ℕ)
  | [], arr => arr
  | i :: rest, arr =>
      brLoop br adj s rest
        (Function.update arr i (br (fun a => oppDist adj s i a)).val)

/-- Lines 53-62: simultaneous revision. All best responses are computed
from the pre-update state `s`, then committed at once (line 62). -/
def playSimultaneous {N A : ℕ} (br : (Fin A → ℤ) → Fin A)
    (adj : Fin N → Fin N → ℤ) (s : AState N) : AState N :=
  brLoop br adj s (List.finRange N) (fun _ => 0)

/-- Lines 64-73: sequential revision of the chosen player `choice` (the
outcome of `np.random.choice(range(self.N))`). -/
def playSequential {N A : ℕ} (br : (Fin A → ℤ) → Fin A)
    (adj : Fin N → Fin N → ℤ) (choice : Fin N) (s : AState N) : AState N :=
  Function.update s choice (br (fun a => oppDist adj s choice a)).val

/-- `play` (lines 48-76): returns the post-call state together with a
success flag; `false` models the `raise ValueError` of line 76, which is
reached without any prior write to the action state. -/
def play {N A : ℕ} (br : (Fin A → ℤ) → Fin A) (adj : Fin N → Fin N → ℤ)
    (revision : String) (choice : Fin N) (s : AState N) : AState N × Bool :=
  if revision = "simultaneous" then (playSimultaneous br adj s, true)
  else if revision = "sequential" then (playSequential br adj choice s, true)
  else (s, false)

/-- Argument to `set_init_actions`: a NumPy scalar or a sequence. -/
inductive InitActions where
  | scalar (a : ℕ)
  | seq (l : List ℕ)

/-- `self.current_actions[:] = init_actions` (line 46): NumPy broadcasting
accepts a scalar, a length-`N` sequence, or a length-1 sequence (broadcast
to all N slots); any other length raises. -/
def setInitExplicit (N : ℕ) : InitActions → Option (AState N)
  | .scalar a => some (fun _ => a)
  | .seq l =>
      if l.length = N then some (fun i => l.getD i.val 0)
      else if l.length = 1 then some (fun _ => l.getD 0 0)
      else none

/-- `set_init_actions` (lines 42-46). `draw` is the oracle for
`np.random.randint(self.num_actions, size=self.N)`; the prior state is
overwritten wholesale, so the result does not depend on it. -/
def setInitActions {N : ℕ} (init : Option InitActions) (draw : Fin N → ℕ)
    (_s : AState N) : Option (AState N) :=
  match init with
  | none => some (fun i => draw i)
  | some ia => setInitExplicit N ia

/-- The compact profile read out as an ordered list of N action indices. -/
def compactList {N : ℕ} (s : AState N) : List ℕ :=
  List.ofFn (fun i => s i)

/-- Body of the generator `simulate_iter` once seeded (lines 103-105):
starting at global step `k` with state `s` and `t` iterations to go,
yield the current compact profile, then `play`; a failing `play` raises
through the generator into the consumer, which then loses all output
(modelled as `none`). `choices` is the oracle stream feeding the
sequential-mode agent selection, indexed by step number. -/
def yieldsFrom {N A : ℕ} (br : (Fin A → ℤ) → Fin A)
    (adj : Fin N → Fin N → ℤ) (revision : String) (choices : ℕ → Fin N) :
    ℕ → AState N → ℕ → Option (List (List ℕ))
  | _, _, 0 => some []
  | k, s, t + 1 =>
      match play br adj revision (choices k) s with
      | (s', true) =>
          Option.map (fun rest => compactList s :: rest)
            (yieldsFrom br adj revision choices (k + 1) s' t)
      | (_, false) => none

/-- `simulate_iter` (lines 95-105): reseeds on entry (line 101), then runs
the generator body; the value is the sequence of profiles observed at the
suspension points by a fully-consuming caller that copies each yield
before the next resumption. -/
def simulateIter {N A : ℕ} (br : (Fin A → ℤ) → Fin A)
    (adj : Fin N → Fin N → ℤ) (revision : String) (choices : ℕ → Fin N)
    (init : Option InitActions) (draw : Fin N → ℕ) (s : AState N)
    (tsLength : ℕ) : Option (List (List ℕ)) :=
  (setInitActions init draw s).bind
    (fun s0 => yieldsFrom br adj revision choices 0 s0 tsLength)

/-- `simulate` (lines 78-93): seeds once itself (line 83, consuming oracle
`draw1` when `init` is omitted), then delegates to `simulate_iter`, whose
body seeds again on first resumption (line 101, oracle `draw2`), and
copies each yield into the row-major `actions_sequence` array. -/
def simulate {N A : ℕ} (br : (Fin A → ℤ) → Fin A)
    (adj : Fin N → Fin N → ℤ) (revision : String) (choices : ℕ → Fin N)
    (init : Option InitActions) (draw1 draw2 : Fin N → ℕ) (s : AState N)
    (tsLength : ℕ) : Option (List (List ℕ)) :=
  (setInitActions init draw1 s).bind
    (fun s1 => simulateIter br adj revision choices init draw2 s1 tsLength)

/-- The engine state after a full consumption of the generator: `play`
has run once per loop iteration. -/
def runPlays {N A : ℕ} (br : (Fin A → ℤ) → Fin A)
    (adj : Fin N → Fin N → ℤ) (revision : String) (choices : ℕ → Fin N) :
    ℕ → AState N → ℕ → Option (AState N)
  | _, s, 0 => some s
  | k, s, t + 1 =>
      match play br adj revision (choices k) s with
      | (s', true) => runPlays br adj revision choices (k + 1) s' t
      | (_, false) => none

/-- What a consumer that retains each yielded object observes after
exhausting `simulate_iter` (for example `list(li.simulate_iter(n))`):
line 104 yields the live `current_actions` buffer itself, never a copy,
so all retained references alias one buffer and, once the generator is
exhausted, every one of them shows the final state. -/
def simulateIterRetained {N A : ℕ} (br : (Fin A → ℤ) → Fin A)
    (adj : Fin N → Fin N → ℤ) (revision : String) (choices : ℕ → Fin N)
    (init : Option InitActions) (draw : Fin N → ℕ) (s : AState N)
    (tsLength : ℕ) : Option (List (List ℕ)) :=
  (setInitActions init draw s).bind (fun s0 =>
    Option.map (fun sF => List.replicate tsLength (compactList sF))
      (runPlays br adj revision choices 0 s0 tsLength))

/-- The two recognised revision modes of `play`. -/
inductive Rev where
  | simultaneous
  | sequential

/-- Which recognised mode, if any, a revision string selects. -/
def parseRev (revision : String) : Option Rev :=
  if revision = "simultaneous" then some .simultaneous
  else if revision = "sequential" then some .sequential
  else none

/-- One recognised revision step. -/
def stepR {N A : ℕ} (br : (Fin A → ℤ) → Fin A) (adj : Fin N → Fin N → ℤ) :
    Rev → Fin N → AState N → AState N
  | .simultaneous, _, s => playSimultaneous br adj s
  | .sequential, c, s => playSequential br adj c s

/-- State after `j` successful plays starting from global step `k`. -/
def trajFrom {N A : ℕ} (br : (Fin A → ℤ) → Fin A)
    (adj : Fin N → Fin N → ℤ) (r : Rev) (choices : ℕ → Fin N) :
    ℕ → AState N → ℕ → AState N
  | _, s, 0 => s
  | k, s, j + 1 =>
      trajFrom br adj r choices (k + 1) (stepR br adj r (choices k) s) j

/-- The dual-representation invariant exactly as the specification states
it: mixed row `i` has at least one nonzero entry, and every nonzero entry
has value 1 and sits in the column given by compact entry `i`. -/
def oneHotConsistent (A : ℕ) {N : ℕ} (s : AState N) : Prop :=
  ∀ i : Fin N, (∃ a : Fin A, mixedOf A s i a ≠ 0) ∧
    ∀ a : Fin A, mixedOf A s i a ≠ 0 → mixedOf A s i a = 1 ∧ a.val = s i

/-- All action indices supplied to explicit seeding lie in `[0, A)`. -/
def initInRange (A : ℕ) : InitActions → Prop
  | .scalar a => a < A
  | .seq l => ∀ x ∈ l, x < A

/-- A user-supplied numeric matrix (dense or sparse), reduced to its
shape and entries. -/
structure InMatrix where
  rows : ℕ
  cols : ℕ
  entry : ℕ → ℕ → ℤ

/-- The engine after a successful `__init__`. -/
structure LIModel where
  N : ℕ
  numActions : ℕ
  adj : Fin N → Fin N → ℤ
  payoff : Fin numActions → Fin numActions → ℤ
  state : AState N

/-- `__init__` (lines 21-40): checks that the adjacency matrix is square,
then that the payoff matrix is square, fixes `N` to the adjacency
dimension and `num_actions` to the payoff dimension, and builds the
initial action state with every agent at action 0. -/
def liInit (payoffM adjM : InMatrix) : Option LIModel :=
  if adjM.rows = adjM.cols then
    if payoffM.rows = payoffM.cols then
      some { N := adjM.cols
             numActions := payoffM.rows
             adj := fun i j => adjM.entry i.val j.val
             payoff := fun a b => payoffM.entry a.val b.val
             state := fun _ => 0 }
    else none
  else none

/-- Concrete one-player engine with a self-loop, used in witnesses. -/
def adjSelf : Fin 1 → Fin 1 → ℤ := fun _ _ => 1

/-- Concrete two-action best response that moves away from action 0
whenever the opponent distribution puts positive weight on action 0;
under `adjSelf` it makes a single player alternate its action. -/
def brFlip : (Fin 2 → ℤ) → Fin 2 := fun d => if 0 < d 0 then 1 else 0

/-- Concrete two-player ring adjacency, used in witnesses. -/
def adjPair : Fin 2 → Fin 2 → ℤ := fun i j => if i = j then 0 else 1

/-- Concrete two-action majority best response, used in witnesses. -/
def brMaj : (Fin 2 → ℤ) → Fin 2 := fun d => if d 1 ≤ d 0 then 0 else 1

/-- The square 0x0 payoff matrix (as produced by `np.zeros((0, 0))`). -/
def payoff00 : InMatrix := ⟨0, 0, fun _ _ => 0⟩

/-- A 1x1 adjacency matrix. -/
def adj11 : InMatrix := ⟨1, 1, fun _ _ => 1⟩

/-- A square 2x2 payoff matrix. -/
def payoff22 : InMatrix := ⟨2, 2, fun _ _ => 1⟩

/-- The engine literal produced by `liInit payoff22 adj11`. -/
def mWit : LIModel :=
  ⟨1, 2, fun i j => adj11.entry i.val j.val,
    fun a b => payoff22.entry a.val b.val, fun _ => 0⟩

/-- After the loop has visited the indices in `order`, slot `j` of the
`best_responses` buffer holds its best response if `j` was visited and its
original (uninitialized) content otherwise. -/
theorem brLoop_eq {N A : ℕ} (br : (Fin A → ℤ) → Fin A)
    (adj : Fin N → Fin N → ℤ) (s : AState N) (order : List (Fin N))
    (arr : Fin N → ℕ) (j : Fin N) :
    brLoop br adj s order arr j =
      if j ∈ order then (br (fun a => oppDist adj s j a)).val else arr j := by
  induction order generalizing arr with
  | nil => simp [brLoop]
  | cons i rest ih =>
      simp only [brLoop, List.mem_cons]
      rw [ih]
      by_cases hj : j ∈ rest
      · simp [hj]
      · by_cases hji : j = i
        · subst hji
          simp [hj, Function.update_same]
        · simp [hj, hji, Function.update_noteq hji]

/-- The simultaneous branch commits, for every player `i`, the best
response to row `i` of the pre-update opponent distributions. -/
theorem playSimultaneous_eq {N A : ℕ} (br : (Fin A → ℤ) → Fin A)
    (adj : Fin N → Fin N → ℤ) (s : AState N) :
    playSimultaneous br adj s = fun i => (br (fun a => oppDist adj s i a)).val := by
  funext j
  unfold playSimultaneous
  rw [brLoop_eq]
  simp [List.mem_finRange]

/-- `play` on a recognised revision string succeeds and performs the
corresponding step. -/
theorem play_of_parse {N A : ℕ} (br : (Fin A → ℤ) → Fin A)
    (adj : Fin N → Fin N → ℤ) (revision : String) (r : Rev)
    (hrev : parseRev revision = some r) (c : Fin N) (s : AState N) :
    play br adj revision c s = (stepR br adj r c s, true) := by
  unfold parseRev at hrev
  by_cases h1 : revision = "simultaneous"
  · simp only [h1, if_true] at hrev
    cases hrev
    simp [play, h1, stepR]
  · by_cases h2 : revision = "sequential"
    · simp only [h1, if_false, h2, if_true] at hrev
      cases hrev
      simp [play, h1, h2, stepR]
    · simp [h1, h2] at hrev

/-- Seeding overwrites the whole buffer: the result never depends on the
prior state. -/
theorem setInitActions_state_indep {N : ℕ} (init : Option InitActions)
    (draw : Fin N → ℕ) (s s' : AState N) :
    setInitActions init draw s = setInitActions init draw s' := rfl

/-- Explicit seeding consumes no randomness: the result depends neither on
the draw oracle nor on the prior state. -/
theorem setInitActions_explicit_indep {N : ℕ} (ia : InitActions)
    (d d' : Fin N → ℕ) (s s' : AState N) :
    setInitActions (some ia) d s = setInitActions (some ia) d' s' := rfl

/-- Whether seeding succeeds depends only on the `init` argument. -/
theorem setInitActions_isSome_congr {N : ℕ} (init : Option InitActions)
    (d d' : Fin N → ℕ) (s s' : AState N) :
    (setInitActions init d s).isSome = (setInitActions init d' s').isSome := by
  cases init <;> rfl

/-- On a recognised revision mode the fully-consumed generator yields
exactly the pre-revision snapshots along the play trajectory. -/
theorem yields_of_parse {N A : ℕ} (br : (Fin A → ℤ) → Fin A)
    (adj : Fin N → Fin N → ℤ) (revision : String) (r : Rev)
    (hrev : parseRev revision = some r) (choices : ℕ → Fin N) :
    ∀ (t k : ℕ) (s : AState N),
      yieldsFrom br adj revision choices k s t =
        some (List.ofFn
          (fun j : Fin t => compactList (trajFrom br adj r choices k s j.val))) := by
  intro t
  induction t with
  | zero => intro k s; simp [yieldsFrom]
  | succ t ih =>
      intro k s
      rw [yieldsFrom, play_of_parse br adj revision r hrev]
      simp only [ih]
      rw [List.ofFn_succ]
      rfl

/-- On a recognised revision mode the fully-consumed generator runs the
state exactly along the play trajectory. -/
theorem runPlays_of_parse {N A : ℕ} (br : (Fin A → ℤ) → Fin A)
    (adj : Fin N → Fin N → ℤ) (revision : String) (r : Rev)
    (hrev : parseRev revision = some r) (choices : ℕ → Fin N) :
    ∀ (t k : ℕ) (s : AState N),
      runPlays br adj revision choices k s t =
        some (trajFrom br adj r choices k s t) := by
  intro t
  induction t with
  | zero => intro k s; simp [runPlays, trajFrom]
  | succ t ih =>
      intro k s
      rw [runPlays, play_of_parse br adj revision r hrev]
      exact ih (k + 1) (stepR br adj r (choices k) s)

/-- `simulate` is `simulate_iter` run from the state left by the first
seeding; since the second seeding overwrites it, the result coincides with
a single `simulate_iter` invocation from any state, using the second draw. -/
theorem simulate_eq_iter {N A : ℕ} (br : (Fin A → ℤ) → Fin A)
    (adj : Fin N → Fin N → ℤ) (revision : String) (choices : ℕ → Fin N)
    (init : Option InitActions) (d1 d2 : Fin N → ℕ) (s s'' : AState N)
    (tsLength : ℕ) :
    simulate br adj revision choices init d1 d2 s tsLength =
      simulateIter br adj revision choices init d2 s'' tsLength := by
  unfold simulate simulateIter
  cases init with
  | none => rfl
  | some ia =>
      show (setInitExplicit N ia).bind _ = (setInitExplicit N ia).bind _
      cases h : setInitExplicit N ia with
      | none => rfl
      | some s0 =>
          show (setInitActions (some ia) d2 s0).bind _ =
            yieldsFrom br adj revision choices 0 s0 tsLength
          rw [(rfl : setInitActions (some ia) d2 s0 = setInitExplicit N ia).trans h]
          rfl

/-- Full characterisation of a `simulate` run on a recognised mode whose
(second) seeding succeeds: the result is the list of pre-revision
snapshots of the trajectory seeded by the second seeding. -/
theorem simulate_run {N A : ℕ} (br : (Fin A → ℤ) → Fin A)
    (adj : Fin N → Fin N → ℤ) (revision : String) (r : Rev)
    (hrev : parseRev revision = some r) (choices : ℕ → Fin N)
    (init : Option InitActions) (d1 d2 : Fin N → ℕ) (s s0 : AState N)
    (hseed : setInitActions init d2 s = some s0) (tsLength : ℕ) :
    simulate br adj revision choices init d1 d2 s tsLength =
      some (List.ofFn
        (fun t : Fin tsLength => compactList (trajFrom br adj r choices 0 s0 t.val))) := by
  rw [simulate_eq_iter br adj revision choices init d1 d2 s s tsLength]
  unfold simulateIter
  rw [hseed]
  exact yields_of_parse br adj revision r hrev choices tsLength 0 s0

/-- The claimed invariant is equivalent to every compact entry being a
valid column index. -/
theorem oneHot_iff {N A : ℕ} (s : AState N) :
    oneHotConsistent A s ↔ ∀ i, s i < A := by
  unfold oneHotConsistent mixedOf
  constructor
  · intro h i
    obtain ⟨⟨a, ha⟩, -⟩ := h i
    by_cases hsa : s i = a.val
    · rw [hsa]; exact a.isLt
    · simp [hsa] at ha
  · intro h i
    refine ⟨⟨⟨s i, h i⟩, by simp⟩, ?_⟩
    intro a ha
    by_cases hsa : s i = a.val
    · simp [hsa]
    · simp [hsa] at ha

/-- Reading the compact form after seeding it verbatim from a length-N
list gives back that list. -/
theorem compactList_getD {N : ℕ} (l : List ℕ) (hl : l.length = N) :
    compactList (fun i : Fin N => l.getD i.val 0) = l := by
  apply List.ext_getElem
  · simp [compactList, hl]
  · intro n h1 h2
    simp only [compactList, List.getElem_ofFn]
    rw [List.getD_eq_getElem]

/-- C1: in simultaneous mode, `play` computes every agent `i`'s opponent
distribution as row `i` of (adjacency matrix · pre-update mixed state),
takes every best response from that same pre-update snapshot, and only
then commits all N new actions at once; consequently the committed
profile is the same for every order in which the loop processes the
agents (and for any initial contents of the uninitialised `np.empty`
buffer `best_responses`). -/
theorem C1_simultaneous_snapshot_order_independent {N A : ℕ}
    (br : (Fin A → ℤ) → Fin A) (adj : Fin N → Fin N → ℤ) (s : AState N)
    (choice : Fin N) (order : List (Fin N)) (garbage : Fin N → ℕ)
    (hcover : ∀ i : Fin N, i ∈ order) :
    play br adj "simultaneous" choice s =
      ((fun i => (br (fun a => ∑ j, adj i j * mixedOf A s j a)).val), true)
    ∧ brLoop br adj s order garbage =
      fun i => (br (fun a => ∑ j, adj i j * mixedOf A s j a)).val := by
  have hcanon : ∀ (ord : List (Fin N)) (g : Fin N → ℕ), (∀ i : Fin N, i ∈ ord) →
      brLoop br adj s ord g =
        fun i => (br (fun a => ∑ j, adj i j * mixedOf A s j a)).val := by
    intro ord g hc
    funext j
    rw [brLoop_eq]
    simp only [hc j, if_true, oppDist]
  constructor
  · have hs : play br adj "simultaneous" choice s =
        (playSimultaneous br adj s, true) := rfl
    rw [hs]
    unfold playSimultaneous
    rw [hcanon (List.finRange N) _ (fun i => List.mem_finRange i)]
  · exact hcanon order garbage hcover

/-- Witness for C1 at a concrete two-player engine, with the processing
order reversed and garbage 99 in the uninitialised buffer. -/
theorem C1_witness :
    (∀ i : Fin 2, i ∈ [(1 : Fin 2), 0]) ∧
    brLoop brMaj adjPair (fun _ : Fin 2 => 0) [(1 : Fin 2), 0] (fun _ => 99) =
      fun i => (brMaj (fun a => ∑ j, adjPair i j * mixedOf 2 (fun _ : Fin 2 => 0) j a)).val := by
  refine ⟨by decide, ?_⟩
  exact (C1_simultaneous_snapshot_order_independent brMaj adjPair
    (fun _ : Fin 2 => 0) 0 [1, 0] (fun _ => 99) (by decide)).2

/-- C2: in sequential mode, `play` updates exactly the chosen agent (the
outcome of the uniform draw of `np.random.choice(range(N))`, modelled as
the oracle value `choice : Fin N`) to the best response of its own
adjacency row times the current mixed state, and leaves every other
agent's action unchanged. -/
theorem C2_sequential_single_update {N A : ℕ} (br : (Fin A → ℤ) → Fin A)
    (adj : Fin N → Fin N → ℤ) (choice : Fin N) (s : AState N) :
    (play br adj "sequential" choice s).2 = true
    ∧ (play br adj "sequential" choice s).1 choice =
        (br (fun a => ∑ j, adj choice j * mixedOf A s j a)).val
    ∧ ∀ j : Fin N, j ≠ choice → (play br adj "sequential" choice s).1 j = s j := by
  have hp : play br adj "sequential" choice s =
      (playSequential br adj choice s, true) := by
    simp [play]
  refine ⟨by rw [hp], ?_, ?_⟩
  · rw [hp]
    show Function.update s choice _ choice = _
    rw [Function.update_same]
    simp only [oppDist]
  · intro j hj
    rw [hp]
    exact Function.update_noteq hj _ s

/-- Witness for C2 at a concrete two-player engine: agent 0 is revised,
agent 1's action is untouched. -/
theorem C2_witness :
    (play brMaj adjPair "sequential" 0 (fun _ : Fin 2 => 1)).2 = true
    ∧ (play brMaj adjPair "sequential" 0 (fun _ : Fin 2 => 1)).1 0 =
        (brMaj (fun a => ∑ j, adjPair 0 j * mixedOf 2 (fun _ : Fin 2 => 1) j a)).val
    ∧ (play brMaj adjPair "sequential" 0 (fun _ : Fin 2 => 1)).1 1 = 1 := by
  obtain ⟨h1, h2, h3⟩ :=
    C2_sequential_single_update brMaj adjPair 0 (fun _ : Fin 2 => 1)
  exact ⟨h1, h2, h3 1 (by decide)⟩

/-- C6: an unrecognised revision string makes `play` fail with the
`ValueError` of line 76, and the action state — in compact and in mixed
form — is exactly what it was before the call: the raise happens before
any write. -/
theorem C6_invalid_revision_atomic {N A : ℕ} (br : (Fin A → ℤ) → Fin A)
    (adj : Fin N → Fin N → ℤ) (revision : String) (choice : Fin N)
    (s : AState N) (h1 : revision ≠ "simultaneous")
    (h2 : revision ≠ "sequential") :
    play br adj revision choice s = (s, false)
    ∧ mixedOf A (play br adj revision choice s).1 = mixedOf A s
    ∧ compactList (play br adj revision choice s).1 = compactList s := by
  have hp : play br adj revision choice s = (s, false) := by
    simp [play, h1, h2]
  exact ⟨hp, by rw [hp], by rw [hp]⟩

/-- Witness for C6 at the unrecognised string "foo". -/
theorem C6_witness :
    ("foo" ≠ "simultaneous") ∧ ("foo" ≠ "sequential")
    ∧ play brFlip adjSelf "foo" 0 (fun _ : Fin 1 => 0) =
        ((fun _ : Fin 1 => 0), false) := by
  refine ⟨by decide, by decide, ?_⟩
  exact (C6_invalid_revision_atomic brFlip adjSelf "foo" 0 (fun _ : Fin 1 => 0)
    (by decide) (by decide)).1

/-- C7: construction fails exactly when the adjacency matrix or the
payoff matrix is not square; on square inputs it succeeds, fixes `N` to
the adjacency dimension and `num_actions` to the payoff dimension, and
starts every agent at action 0. -/
theorem C7_construction_validation (payoffM adjM : InMatrix) :
    ((liInit payoffM adjM).isSome ↔
      (adjM.rows = adjM.cols ∧ payoffM.rows = payoffM.cols))
    ∧ ∀ m, liInit payoffM adjM = some m →
        m.N = adjM.rows ∧ m.numActions = payoffM.rows ∧ ∀ i, m.state i = 0 := by
  unfold liInit
  split_ifs with ha hp
  · refine ⟨by simp [ha, hp], ?_⟩
    intro m hm
    injection hm with hm'
    subst hm'
    exact ⟨ha.symm, rfl, fun _ => rfl⟩
  · refine ⟨by simp [ha, hp], ?_⟩
    intro m hm
    exact absurd hm (by simp)
  · refine ⟨by simp [ha], ?_⟩
    intro m hm
    exact absurd hm (by simp)

/-- Witness for C7 at concrete square 2x2 payoff and 1x1 adjacency
matrices: construction succeeds with N = 1, num_actions = 2, all actions
at 0. -/
theorem C7_witness :
    ((liInit payoff22 adj11).isSome ↔
      (adj11.rows = adj11.cols ∧ payoff22.rows = payoff22.cols))
    ∧ mWit.N = adj11.rows ∧ mWit.numActions = payoff22.rows
    ∧ ∀ i, mWit.state i = 0 := by
  obtain ⟨h1, h2⟩ := C7_construction_validation payoff22 adj11
  exact ⟨h1, h2 mWit rfl⟩

/-- C10: explicit seeding with a single scalar, or with a length-1
sequence, does not fail: NumPy broadcasting writes that one action index
into every one of the N agents' compact-form slots. -/
theorem C10_scalar_broadcast (N a : ℕ) :
    (∃ f : AState N, setInitExplicit N (.scalar a) = some f ∧ ∀ i, f i = a)
    ∧ (∃ f : AState N, setInitExplicit N (.seq [a]) = some f ∧ ∀ i, f i = a) := by
  constructor
  · exact ⟨fun _ => a, rfl, fun _ => rfl⟩
  · by_cases h : [a].length = N
    · refine ⟨fun i => [a].getD i.val 0, ?_, ?_⟩
      · simp only [setInitExplicit]
        rw [if_pos h]
      · intro i
        have hN : N = 1 := by simpa using h.symm
        have hi : i.val = 0 := by
          have := i.isLt
          omega
        simp [hi]
    · refine ⟨fun _ => [a].getD 0 0, ?_, fun _ => rfl⟩
      simp only [setInitExplicit]
      rw [if_neg h]
      simp

/-- C3 counterexample: a square 0x0 payoff matrix (e.g. `np.zeros((0, 0))`)
passes the shape checks, so construction succeeds with `num_actions = 0`;
then at construction (all agents at action 0) mixed row 0 is empty — the
claimed "exactly one nonzero entry" fails. -/
theorem C3_counterexample :
    ∃ m : LIModel, liInit payoff00 adj11 = some m ∧ m.N = 1 ∧ m.numActions = 0
      ∧ ¬ oneHotConsistent m.numActions m.state := by
  refine ⟨⟨1, 0, fun i j => adj11.entry i.val j.val,
    fun a b => payoff00.entry a.val b.val, fun _ => 0⟩, rfl, rfl, rfl, ?_⟩
  intro hc
  obtain ⟨⟨a, -⟩, -⟩ := hc 0
  exact a.elim0

/-- C3 (amended: the construction-time part of the invariant additionally
requires `num_actions ≥ 1`; a 0x0 payoff matrix is square, yields
`num_actions = 0`, and then every mixed row is empty — see
`C3_counterexample`): with at least one action, dual-representation
consistency holds at construction, after explicit seeding with in-range
action indices, after random seeding (whose entries all lie in
`[0, num_actions)`), and after any `play` call, recognised or not. -/
theorem C3_dual_representation_invariant {N A : ℕ} (hA : 1 ≤ A)
    (br : (Fin A → ℤ) → Fin A) (adj : Fin N → Fin N → ℤ) :
    oneHotConsistent A (fun _ : Fin N => 0)
    ∧ (∀ (ia : InitActions) (s' : AState N),
        setInitExplicit N ia = some s' → initInRange A ia →
          oneHotConsistent A s')
    ∧ (∀ (draw : Fin N → ℕ) (s : AState N), (∀ i, draw i < A) →
        ∃ s', setInitActions none draw s = some s' ∧ (∀ i, s' i < A)
          ∧ oneHotConsistent A s')
    ∧ (∀ (s : AState N) (revision : String) (choice : Fin N),
        oneHotConsistent A s →
          oneHotConsistent A (play br adj revision choice s).1) := by
  refine ⟨?_, ?_, ?_, ?_⟩
  · rw [oneHot_iff]
    intro i
    omega
  · rintro ia s' hs hr
    rw [oneHot_iff]
    cases ia with
    | scalar a =>
        simp only [setInitExplicit] at hs
        injection hs with h
        subst h
        intro i
        exact hr
    | seq l =>
        simp only [setInitExplicit] at hs
        by_cases hl : l.length = N
        · rw [if_pos hl] at hs
          injection hs with h
          subst h
          intro i
          have hi : i.val < l.length := by
            have := i.isLt
            omega
          show l.getD i.val 0 < A
          rw [List.getD_eq_getElem _ _ hi]
          exact hr _ (List.getElem_mem hi)
        · rw [if_neg hl] at hs
          by_cases h1 : l.length = 1
          · rw [if_pos h1] at hs
            injection hs with h
            subst h
            intro i
            have h0 : 0 < l.length := by omega
            show l.getD 0 0 < A
            rw [List.getD_eq_getElem _ _ h0]
            exact hr _ (List.getElem_mem h0)
          · rw [if_neg h1] at hs
            exact absurd hs (by simp)
  · intro draw s hd
    refine ⟨fun i => draw i, rfl, hd, ?_⟩
    rw [oneHot_iff]
    exact hd
  · intro s revision choice hs
    rw [oneHot_iff] at hs ⊢
    intro i
    unfold play
    split_ifs with h1 h2
    · show playSimultaneous br adj s i < A
      rw [congrFun (playSimultaneous_eq br adj s) i]
      exact (br _).isLt
    · show playSequential br adj choice s i < A
      unfold playSequential
      by_cases hic : i = choice
      · subst hic
        rw [Function.update_same]
        exact (br _).isLt
      · rw [Function.update_noteq hic]
        exact hs i
    · exact hs i

/-- Witness for C3's amended invariant at a concrete one-player,
two-action engine, exercising construction, explicit seeding with [1],
random seeding, and a sequential play. -/
theorem C3_witness :
    oneHotConsistent 2 (fun _ : Fin 1 => 0)
    ∧ oneHotConsistent 2 (fun i : Fin 1 => [1].getD i.val 0)
    ∧ (∃ s', setInitActions none (fun _ : Fin 1 => 1) (fun _ : Fin 1 => 0) = some s'
        ∧ (∀ i, s' i < 2) ∧ oneHotConsistent 2 s')
    ∧ oneHotConsistent 2 (play brFlip adjSelf "sequential" 0 (fun _ : Fin 1 => 0)).1 := by
  obtain ⟨h1, h2, h3, h4⟩ :=
    C3_dual_representation_invariant (by decide) brFlip adjSelf
  refine ⟨h1, ?_, h3 (fun _ => 1) (fun _ => 0) (by decide), h4 _ "sequential" 0 h1⟩
  exact h2 (.seq [1]) (fun i : Fin 1 => [1].getD i.val 0) rfl
    (by decide : ∀ x ∈ [(1 : ℕ)], x < 2)

/-- The head of a nonempty `ofFn` list is the image of index 0. -/
theorem ofFn_head {α : Type} {n : ℕ} (f : Fin (n + 1) → α) :
    (List.ofFn f).head? = some (f 0) := by
  rw [List.ofFn_succ]
  rfl

/-- On a recognised mode a successful `simulate_iter` run returns exactly
`tsLength` profiles. -/
theorem simulateIter_length {N A : ℕ} (br : (Fin A → ℤ) → Fin A)
    (adj : Fin N → Fin N → ℤ) (revision : String) (r : Rev)
    (hr : parseRev revision = some r) (choices : ℕ → Fin N)
    (init : Option InitActions) (d2 : Fin N → ℕ) (s : AState N)
    (tsLength : ℕ) :
    ∀ L, simulateIter br adj revision choices init d2 s tsLength = some L →
      L.length = tsLength := by
  intro L hL
  unfold simulateIter at hL
  cases hseed : setInitActions init d2 s with
  | none =>
      rw [hseed] at hL
      exact absurd hL (by simp)
  | some s0 =>
      rw [hseed] at hL
      replace hL : yieldsFrom br adj revision choices 0 s0 tsLength = some L := hL
      rw [yields_of_parse br adj revision r hr choices tsLength 0 s0] at hL
      injection hL with h
      rw [← h]
      simp

/-- C4: `simulate`, on a recognised revision mode and with valid initial
actions (a seeding that succeeds), returns exactly `tsLength` profiles,
each an ordered list of N action indices, and profile `t` is the compact
form snapshotted before revision `t` is applied along the seeded
trajectory. -/
theorem C4_simulate_trajectory {N A : ℕ} (br : (Fin A → ℤ) → Fin A)
    (adj : Fin N → Fin N → ℤ) (revision : String) (r : Rev)
    (hrev : parseRev revision = some r) (choices : ℕ → Fin N)
    (init : Option InitActions) (d1 d2 : Fin N → ℕ) (s s0 : AState N)
    (hseed : setInitActions init d2 s = some s0) (tsLength : ℕ) :
    simulate br adj revision choices init d1 d2 s tsLength =
      some (List.ofFn
        (fun t : Fin tsLength => compactList (trajFrom br adj r choices 0 s0 t.val)))
    ∧ ∀ L, simulate br adj revision choices init d1 d2 s tsLength = some L →
        L.length = tsLength ∧ ∀ p ∈ L, p.length = N := by
  have hrun := simulate_run br adj revision r hrev choices init d1 d2 s s0 hseed tsLength
  refine ⟨hrun, ?_⟩
  intro L hL
  rw [hrun] at hL
  injection hL with hL'
  subst hL'
  refine ⟨by simp, ?_⟩
  intro p hp
  rw [List.mem_ofFn] at hp
  obtain ⟨t, rfl⟩ := hp
  simp [compactList]

/-- Witness for C4: a one-player self-loop engine with the alternating
best response, explicit initial profile [0], two simultaneous steps; the
recorded trajectory is [[0], [1]]. -/
theorem C4_witness :
    simulate brFlip adjSelf "simultaneous" (fun _ => 0) (some (.seq [0]))
        (fun _ => 0) (fun _ => 0) (fun _ : Fin 1 => 0) 2 =
      some (List.ofFn (fun t : Fin 2 =>
        compactList (trajFrom brFlip adjSelf .simultaneous (fun _ => 0) 0
          (fun i : Fin 1 => [0].getD i.val 0) t.val)))
    ∧ simulate brFlip adjSelf "simultaneous" (fun _ => 0) (some (.seq [0]))
        (fun _ => 0) (fun _ => 0) (fun _ : Fin 1 => 0) 2 = some [[0], [1]] := by
  obtain ⟨h1, h2⟩ := C4_simulate_trajectory brFlip adjSelf "simultaneous"
    .simultaneous rfl (fun _ => 0) (some (.seq [0])) (fun _ => 0) (fun _ => 0)
    (fun _ : Fin 1 => 0) (fun i : Fin 1 => [0].getD i.val 0) rfl 2
  refine ⟨h1, ?_⟩
  rw [h1]
  decide

/-- C5 (amended: line 104 yields the LIVE `current_actions` buffer, not a
snapshot, so what matches the eager `simulate` is the sequence of values
observed at the suspension points by a consumer that copies before each
resumption — as `simulate` itself does; a consumer that retains the
yielded references instead ends with every entry equal to the final
state, see `C5_counterexample`): so consumed, `simulate_iter` produces
the same ordered profile sequence as the eager `simulate`, yields at most
`tsLength` items, and reseeds on entry exactly as the eager variant, its
output being independent of the engine state left by earlier calls. -/
theorem C5_iter_matches_simulate {N A : ℕ} (br : (Fin A → ℤ) → Fin A)
    (adj : Fin N → Fin N → ℤ) (revision : String) (choices : ℕ → Fin N)
    (init : Option InitActions) (d1 d2 : Fin N → ℕ)
    (s s'' s''' : AState N) (tsLength : ℕ) :
    simulate br adj revision choices init d1 d2 s tsLength =
      simulateIter br adj revision choices init d2 s'' tsLength
    ∧ simulateIter br adj revision choices init d2 s'' tsLength =
      simulateIter br adj revision choices init d2 s''' tsLength
    ∧ ∀ r, parseRev revision = some r →
        ∀ L, simulateIter br adj revision choices init d2 s'' tsLength = some L →
          L.length ≤ tsLength := by
  refine ⟨simulate_eq_iter br adj revision choices init d1 d2 s s'' tsLength,
    ?_, ?_⟩
  · unfold simulateIter
    rw [setInitActions_state_indep init d2 s'' s''']
  · intro r hr L hL
    exact le_of_eq
      (simulateIter_length br adj revision r hr choices init d2 s'' tsLength L hL)

/-- Witness for C5's amended statement at a concrete one-player engine,
with distinct first-seeding draws and distinct stale pre-states. -/
theorem C5_witness :
    (simulate brFlip adjSelf "simultaneous" (fun _ => 0) (some (.seq [0]))
        (fun _ => 3) (fun _ => 4) (fun _ : Fin 1 => 7) 2 =
      simulateIter brFlip adjSelf "simultaneous" (fun _ => 0) (some (.seq [0]))
        (fun _ => 4) (fun _ : Fin 1 => 8) 2)
    ∧ (simulateIter brFlip adjSelf "simultaneous" (fun _ => 0) (some (.seq [0]))
        (fun _ => 4) (fun _ : Fin 1 => 8) 2 =
      simulateIter brFlip adjSelf "simultaneous" (fun _ => 0) (some (.seq [0]))
        (fun _ => 4) (fun _ : Fin 1 => 9) 2)
    ∧ ∀ L, simulateIter brFlip adjSelf "simultaneous" (fun _ => 0)
        (some (.seq [0])) (fun _ => 4) (fun _ : Fin 1 => 8) 2 = some L →
          L.length ≤ 2 := by
  obtain ⟨h1, h2, h3⟩ := C5_iter_matches_simulate brFlip adjSelf "simultaneous"
    (fun _ => 0) (some (.seq [0])) (fun _ => 3) (fun _ => 4)
    (fun _ : Fin 1 => 7) (fun _ : Fin 1 => 8) (fun _ : Fin 1 => 9) 2
  exact ⟨h1, h2, h3 .simultaneous rfl⟩

/-- C5 counterexample: on the alternating one-player engine with initial
profile [0] and two simultaneous steps, the eager `simulate` returns
[[0], [1]], but a consumer that retains the yielded (live, uncopied)
objects of `simulate_iter` is left with [[0], [0]] — both entries showing
the final state — so the yielded profiles are not snapshots/copies. -/
theorem C5_counterexample :
    simulate brFlip adjSelf "simultaneous" (fun _ => 0) (some (.seq [0]))
      (fun _ => 0) (fun _ => 0) (fun _ : Fin 1 => 0) 2 = some [[0], [1]]
    ∧ simulateIterRetained brFlip adjSelf "simultaneous" (fun _ => 0)
      (some (.seq [0])) (fun _ => 0) (fun _ : Fin 1 => 0) 2 = some [[0], [0]]
    ∧ some [[0], [1]] ≠ some ([[0], [0]] : List (List ℕ)) := by
  refine ⟨by decide, by decide, by decide⟩

/-- C8: two `simulate` calls with the same explicit `init_actions` (a
length-N list) and the same recognised revision mode both succeed and
record the same first profile — equal to `init_actions` — no matter what
state earlier calls left in the engine, which draw oracles are consumed,
or which sequential-choice streams are used. -/
theorem C8_reseed_determinism {N A : ℕ} (br : (Fin A → ℤ) → Fin A)
    (adj : Fin N → Fin N → ℤ) (revision : String) (r : Rev)
    (hrev : parseRev revision = some r) (l : List ℕ) (hl : l.length = N)
    (tsLength : ℕ) (hts : 1 ≤ tsLength) (ch1 ch2 : ℕ → Fin N)
    (d1 d2 d1' d2' : Fin N → ℕ) (s1 s2 : AState N) :
    ∃ L1 L2,
      simulate br adj revision ch1 (some (.seq l)) d1 d2 s1 tsLength = some L1
      ∧ simulate br adj revision ch2 (some (.seq l)) d1' d2' s2 tsLength = some L2
      ∧ L1.head? = some l ∧ L2.head? = some l := by
  have hseed : ∀ (d : Fin N → ℕ) (s : AState N),
      setInitActions (some (.seq l)) d s = some (fun i : Fin N => l.getD i.val 0) := by
    intro d s
    show setInitExplicit N (.seq l) = _
    simp only [setInitExplicit]
    rw [if_pos hl]
  obtain ⟨t, rfl⟩ : ∃ t, tsLength = t + 1 := ⟨tsLength - 1, by omega⟩
  have run1 := simulate_run br adj revision r hrev ch1 (some (.seq l)) d1 d2 s1
    (fun i : Fin N => l.getD i.val 0) (hseed d2 s1) (t + 1)
  have run2 := simulate_run br adj revision r hrev ch2 (some (.seq l)) d1' d2' s2
    (fun i : Fin N => l.getD i.val 0) (hseed d2' s2) (t + 1)
  refine ⟨_, _, run1, run2, ?_, ?_⟩
  · rw [ofFn_head]
    show some (compactList (fun i : Fin N => l.getD i.val 0)) = some l
    rw [compactList_getD l hl]
  · rw [ofFn_head]
    show some (compactList (fun i : Fin N => l.getD i.val 0)) = some l
    rw [compactList_getD l hl]

/-- Witness for C8: two runs from different stale states with different
draw oracles, same explicit initial profile [0]. -/
theorem C8_witness :
    ∃ L1 L2,
      simulate brFlip adjSelf "sequential" (fun _ => 0) (some (.seq [0]))
        (fun _ => 5) (fun _ => 6) (fun _ : Fin 1 => 1) 1 = some L1
      ∧ simulate brFlip adjSelf "sequential" (fun _ => 0) (some (.seq [0]))
        (fun _ => 7) (fun _ => 8) (fun _ : Fin 1 => 0) 1 = some L2
      ∧ L1.head? = some [0] ∧ L2.head? = some [0] :=
  C8_reseed_determinism brFlip adjSelf "sequential" .sequential rfl [0] rfl 1
    (by decide) (fun _ => 0) (fun _ => 0) (fun _ => 5) (fun _ => 6)
    (fun _ => 7) (fun _ => 8) (fun _ : Fin 1 => 1) (fun _ : Fin 1 => 0)

/-- C9 (implicit double seeding): `simulate` seeds once itself and once
more inside the `simulate_iter` it consumes. With `init_actions` omitted
the first random draw (`d1`) is discarded unobserved — the result equals
a single `simulate_iter` run using the second draw `d2`, from any state —
and the first recorded profile is the second draw itself; with explicit
`init_actions` the double seeding is idempotent: `simulate` coincides
with the singly-seeding `simulate_iter`. -/
theorem C9_double_seeding {N A : ℕ} (br : (Fin A → ℤ) → Fin A)
    (adj : Fin N → Fin N → ℤ) (revision : String) (choices : ℕ → Fin N)
    (d1 d1' d2 : Fin N → ℕ) (s s' : AState N) (tsLength : ℕ) :
    simulate br adj revision choices none d1 d2 s tsLength =
      simulateIter br adj revision choices none d2 s' tsLength
    ∧ simulate br adj revision choices none d1 d2 s tsLength =
      simulate br adj revision choices none d1' d2 s' tsLength
    ∧ (∀ r, parseRev revision = some r → 1 ≤ tsLength →
        ∀ L, simulate br adj revision choices none d1 d2 s tsLength = some L →
          L.head? = some (List.ofFn (fun i : Fin N => d2 i)))
    ∧ ∀ ia : InitActions,
        simulate br adj revision choices (some ia) d1 d2 s tsLength =
          simulateIter br adj revision choices (some ia) d2 s tsLength := by
  refine ⟨simulate_eq_iter br adj revision choices none d1 d2 s s' tsLength,
    ?_, ?_, ?_⟩
  · rw [simulate_eq_iter br adj revision choices none d1 d2 s s' tsLength,
      ← simulate_eq_iter br adj revision choices none d1' d2 s' s' tsLength]
  · intro r hr hts L hL
    obtain ⟨t, rfl⟩ : ∃ t, tsLength = t + 1 := ⟨tsLength - 1, by omega⟩
    rw [simulate_run br adj revision r hr choices none d1 d2 s
      (fun i => d2 i) rfl (t + 1)] at hL
    injection hL with h
    rw [← h, ofFn_head]
    rfl
  · intro ia
    exact simulate_eq_iter br adj revision choices (some ia) d1 d2 s s tsLength

/-- Witness for C9: one-player engine, one simultaneous step; with random
seeding the recorded trajectory starts from the second draw (action 1),
the first draw (action 0) being discarded; with an explicit scalar init
the double seeding is idempotent. -/
theorem C9_witness :
    (simulate brFlip adjSelf "simultaneous" (fun _ => 0) none (fun _ => 0)
        (fun _ => 1) (fun _ : Fin 1 => 0) 1 =
      simulateIter brFlip adjSelf "simultaneous" (fun _ => 0) none
        (fun _ => 1) (fun _ : Fin 1 => 5) 1)
    ∧ simulate brFlip adjSelf "simultaneous" (fun _ => 0) none (fun _ => 0)
        (fun _ => 1) (fun _ : Fin 1 => 0) 1 = some [[1]]
    ∧ ([[1]] : List (List ℕ)).head? = some (List.ofFn (fun _ : Fin 1 => 1))
    ∧ simulate brFlip adjSelf "simultaneous" (fun _ => 0) (some (.scalar 1))
        (fun _ => 0) (fun _ => 1) (fun _ : Fin 1 => 0) 1 =
      simulateIter brFlip adjSelf "simultaneous" (fun _ => 0) (some (.scalar 1))
        (fun _ => 1) (fun _ : Fin 1 => 0) 1 := by
  obtain ⟨h1, h2, h3, h4⟩ := C9_double_seeding brFlip adjSelf "simultaneous"
    (fun _ => 0) (fun _ => 0) (fun _ => 3) (fun _ => 1) (fun _ : Fin 1 => 0)
    (fun _ : Fin 1 => 5) 1
  have hrun : simulate brFlip adjSelf "simultaneous" (fun _ => 0) none
      (fun _ => 0) (fun _ => 1) (fun _ : Fin 1 => 0) 1 = some [[1]] := by decide
  exact ⟨h1, hrun, h3 .simultaneous rfl (by decide) [[1]] hrun, h4 (.scalar 1)⟩

end LocalInteraction
